import Mathlib

/-!
Verification of the .reg import core of programs/reg/import.c.

Shallow embedding conventions:
* `WCHAR` code units are modelled as `Nat` (the code points; the line source
  only ever feeds NUL-free lines to the parser, so lists carry no terminator).
* C strings are modelled as `List Nat` without the trailing NUL; reading the
  terminator of a string is modelled by `List.getD _ _ 0` (reading index
  `length` yields 0, the NUL).
* The backing registry (RegCreateKeyExW / RegCloseKey / RegSetValueExW and
  path_get_rootkey, all external to import.c) is an abstract adapter: two
  oracles decide whether root resolution and key creation succeed, and the
  store records open handles, successfully written values, user-visible
  messages and a trace of adapter calls.
-/

namespace RegImport

/-- Character codes used by the parser (space, tab, quote, backslash, ...). -/
def chSp : Nat := 32

def chTab : Nat := 9

def chQuote : Nat := 34

def chBackslash : Nat := 92

def chSemi : Nat := 59

def chLBracket : Nat := 91

def chRBracket : Nat := 93

def chAt : Nat := 64

def chEq : Nat := 61

def chMinus : Nat := 45

def chCR : Nat := 13

def chLF : Nat := 10

/-- `*s == ' ' || *s == '\t'`: the blank characters skipped by the parser. -/
def isBlank (c : Nat) : Bool := c == 32 || c == 9

/-- `while (*s == ' ' || *s == '\t') s++`. -/
def skipWs (s : List Nat) : List Nat := s.dropWhile isBlank

/-- Wine's isxdigitW restricted to the ASCII hex digits it recognises here. -/
def isxdigitW (c : Nat) : Bool :=
  (48 ≤ c && c ≤ 57) || (65 ≤ c && c ≤ 70) || (97 ≤ c && c ≤ 102)

/-- Numeric value of one hex digit. -/
def hexDigitVal (c : Nat) : Nat :=
  if 48 ≤ c ∧ c ≤ 57 then c - 48
  else if 65 ≤ c ∧ c ≤ 70 then c - 55
  else if 97 ≤ c ∧ c ≤ 102 then c - 87
  else 0

/-- Value of a hex-digit string (as strtoulW/wcstoul compute it, exactly). -/
def hexVal (l : List Nat) : Nat := l.foldl (fun a c => a * 16 + hexDigitVal c) 0

/-- Turn a list of Lean characters into the code-unit lists the model uses. -/
def wchars (l : List Char) : List Nat := l.map Char.toNat

/-- enum reg_versions of import.c. -/
inductive RegVersion where
  | v31
  | v40
  | v50
  | fuzzy
  | invalid
deriving DecidableEq

/-- "REGEDIT", the header_31 string (also the 7-character legacy token). -/
def header31 : List Nat := wchars ['R','E','G','E','D','I','T']

/-- "REGEDIT4", the header_40 string. -/
def header40 : List Nat := wchars ['R','E','G','E','D','I','T','4']

/-- "Windows Registry Editor Version 5.00", the header_50 string. -/
def header50 : List Nat :=
  wchars ['W','i','n','d','o','w','s',' ',
          'R','e','g','i','s','t','r','y',' ','E','d','i','t','o','r',' ',
          'V','e','r','s','i','o','n',' ','5','.','0','0']

/-- parse_file_header: skip blanks, exact-match the three headers, then the
7-character prefix check (strncmpW with the 7 chars of "REGEDIT"). -/
def parse_file_header (s : List Nat) : RegVersion :=
  let t := skipWs s
  if t = header31 then .v31
  else if t = header40 then .v40
  else if t = header50 then .v50
  else if t.take 7 = header31 then .fuzzy
  else .invalid

/-- convert_hex_to_dword: skip leading blanks; fail when nothing remains
(`if (!*str) goto error`); count the consecutive hex digits; more than 8
fails; skip blanks after the digits; anything but end-of-string or a ';'
comment fails; otherwise the value of the digits (strtoulW base 16). -/
def convert_hex_to_dword (s : List Nat) : Option Nat :=
  let t := skipWs s
  if t = [] then none
  else
    let digits := t.takeWhile isxdigitW
    if 8 < digits.length then none
    else
      let q := skipWs (t.dropWhile isxdigitW)
      if q = [] ∨ q.headD 0 = chSemi then some (hexVal digits) else none

/-- The accept-set claim C6 describes: 0 to 8 hexadecimal digits surrounded
by optional spaces/tabs, followed by an optional comment starting with ';'. -/
def claimHex32Accepts (s : List Nat) : Bool :=
  let t := skipWs s
  let digits := t.takeWhile isxdigitW
  let q := skipWs (t.dropWhile isxdigitW)
  decide (digits.length ≤ 8) && (q.isEmpty || q.headD 0 == chSemi)

/-- Prepend an unescaped output character to an unescaping result. -/
def consHead (c : Nat) (r : Option (List Nat × List Nat) × List Nat) :
    Option (List Nat × List Nat) × List Nat :=
  (r.1.map (fun p => (c :: p.1, p.2)), r.2)

/-- Record a STRING_ESCAPE_SEQUENCE diagnostic character. -/
def consDiag (c : Nat) (r : Option (List Nat × List Nat) × List Nat) :
    Option (List Nat × List Nat) × List Nat :=
  (r.1, c :: r.2)

/-- One C character read `str[i]`: any out-of-range index reads as the NUL
terminator 0 (the model's lines are NUL-free, so `s.length` is lstrlenW). -/
def strAt (s : List Nat) (i : Nat) : Nat := s.getD i 0

/-- The scanning loop of unescape_string, indexed exactly as the C loop
(`i` is str_idx; the fuel argument only bounds the iteration count and
unescape_string supplies enough of it). Returns `(some (unescaped,
unparsed), diags)` when an unescaped closing quote is found, `(none, diags)`
otherwise; `diags` lists the STRING_ESCAPE_SEQUENCE characters in order. -/
def unescapeLoop (s : List Nat) : Nat → Nat → Option (List Nat × List Nat) × List Nat
  | 0, _ => (none, [])
  | fuel + 1, i =>
    if i < s.length then
      let c := strAt s i
      if c = 92 then
        let e := strAt s (i + 1)
        if e = 110 then consHead 10 (unescapeLoop s fuel (i + 2))
        else if e = 114 then consHead 13 (unescapeLoop s fuel (i + 2))
        else if e = 48 then consHead 0 (unescapeLoop s fuel (i + 2))
        else if e = 92 ∨ e = 34 then
          consHead e (unescapeLoop s fuel (i + 2))
        else if e = 0 then (none, [])
        else consDiag e (consHead e (unescapeLoop s fuel (i + 2)))
      else if c = 34 then (some ([], s.drop (i + 1)), [])
      else consHead c (unescapeLoop s fuel (i + 1))
    else (none, [])

/-- unescape_string: replaces escape sequences in-place and terminates the
string at the first non-escaped double quote; the C in-place buffer writes
are modelled by returning the unescaped prefix and the unparsed suffix. -/
def unescape_string (s : List Nat) : Option (List Nat × List Nat) × List Nat :=
  unescapeLoop s (s.length + 1) 0

/-- Claim C5's unescaping rule, transcribed from its words: characters are
copied verbatim; `\n`, `\r`, `\0`, `\\`, `\"` become newline, carriage
return, NUL, backslash, quote; any other escaped character is copied
literally with a diagnostic; the first unescaped double quote terminates the
string with success; without a terminating quote the function fails. -/
def unescapeSpec : List Nat → Option (List Nat × List Nat) × List Nat
  | [] => (none, [])
  | [c] => if c = 34 then (some ([], []), []) else (none, [])
  | c :: e :: r2 =>
    if c = 34 then (some ([], e :: r2), [])
    else if c = 92 then
      if e = 110 then consHead 10 (unescapeSpec r2)
      else if e = 114 then consHead 13 (unescapeSpec r2)
      else if e = 48 then consHead 0 (unescapeSpec r2)
      else if e = 92 ∨ e = 34 then consHead e (unescapeSpec r2)
      else consDiag e (consHead e (unescapeSpec r2))
    else consHead c (unescapeSpec (e :: r2))

/-! The parser state machine (struct parser and its per-state handlers).
Registry data type codes are the winnt numerals: REG_SZ = 1, REG_BINARY = 3,
REG_DWORD = 4. The line source is abstracted as the list of lines it yields
(get_lineA/get_lineW are modelled byte-exactly separately, below). -/

/-- Wine's isspaceW restricted to the ASCII whitespace relevant here. -/
def isspaceW (c : Nat) : Bool :=
  c == 32 || c == 9 || c == 10 || c == 11 || c == 12 || c == 13

/-- lstrlenW on an unescaped in-buffer string: length up to the first NUL. -/
def lstrlenW (u : List Nat) : Nat := (u.takeWhile (fun c => c != 0)).length

/-- tolowerW as used on the character after `hex(`'s first tag character. -/
def toLowerW (c : Nat) : Nat := if 65 ≤ c ∧ c ≤ 90 then c + 32 else c

/-- Index of the last occurrence of `x` (strrchrW). -/
def strrchrIdx (l : List Nat) (x : Nat) : Option Nat :=
  match l with
  | [] => none
  | c :: r =>
    match strrchrIdx r x with
    | some k => some (k + 1)
    | none => if c = x then some 0 else none

/-- `(s.reverse.dropWhile isBlank).reverse`: the trailing-blank trim of
data_start_state. -/
def rtrimWs (s : List Nat) : List Nat := (s.reverse.dropWhile isBlank).reverse

/-- wcstoul(str, &end, 16) with a 32-bit unsigned long: returns (value,
overflow flag standing for errno == ERANGE, rest of string standing for
`end`). Skips leading whitespace, accepts one optional sign, consumes a 0x/0X
prefix when a hex digit follows it, parses hex digits, clamps to 0xffffffff
with the overflow flag on overflow, negates modulo 2^32 under a minus sign;
with no digits at all, `end` is the original string and the value is 0. -/
def wcstoulHex (s : List Nat) : Nat × Bool × List Nat :=
  let t := s.dropWhile isspaceW
  let neg := t.headD 0 = 45
  let t1 := if t.headD 0 = 45 ∨ t.headD 0 = 43 then t.drop 1 else t
  let t2 :=
    if t1.headD 0 = 48 ∧ (t1.getD 1 0 = 120 ∨ t1.getD 1 0 = 88) ∧
        isxdigitW (t1.getD 2 0) = true then t1.drop 2
    else t1
  let digits := t2.takeWhile isxdigitW
  let rest := t2.dropWhile isxdigitW
  if digits = [] then (0, false, s)
  else
    let v := hexVal digits
    if 4294967296 ≤ v then (4294967295, true, rest)
    else (if neg then (4294967296 - v % 4294967296) % 4294967296 else v, false, rest)

/-- enum parser_state. -/
inductive PState where
  | headerSt
  | win31St
  | lineStartSt
  | keyNameSt
  | defaultValueNameSt
  | quotedValueNameSt
  | dataStartSt
  | dataTypeSt
  | stringDataSt
  | dwordDataSt
  | setValueSt
deriving DecidableEq

/-- The staged value data: a wide-character buffer (REG_SZ forms) or the
heap-allocated DWORD of dword_data_state. -/
inductive VData where
  | wstrD (u : List Nat)
  | dwD (v : Nat)
deriving DecidableEq

/-- struct parser (the fields the claims observe; `file` and the get_line
function pointer are replaced by the abstract line list). -/
structure Parser where
  isUnicode : Bool
  twoWchars : List Nat
  regVersion : Option RegVersion
  hkey : Option Nat
  keyName : Option (List Nat)
  valueName : Option (List Nat)
  parseType : Nat
  dataType : Nat
  pdata : Option VData
  dataSize : Nat
  pstate : PState
deriving DecidableEq

/-- One adapter call recorded in order: RegCreateKeyExW with its result,
RegCloseKey, RegSetValueExW with the handle it was given. -/
inductive Op where
  | createK (path : List Nat) (res : Option Nat)
  | closeK (h : Nat)
  | setV (h : Option Nat) (name : Option (List Nat)) (ty : Nat)
      (payload : List Nat) (size : Nat)
deriving DecidableEq

/-- output_message calls the claims observe. -/
inductive Msg where
  | openKeyFailed (path : List Nat)
  | escapeDiag (c : Nat)
deriving DecidableEq

/-- The abstract registry backend state: fresh-handle counter, currently open
handles, successfully written values, messages, and the full adapter trace. -/
structure Store where
  nextH : Nat
  openHs : List Nat
  values : List (Nat × Option (List Nat) × Nat × List Nat)
  msgs : List Msg
  trace : List Op
deriving DecidableEq

/-- The external store adapter: whether path_get_rootkey resolves the root of
a path, and whether RegCreateKeyExW succeeds on it. -/
structure Adapter where
  rootOk : List Nat → Bool
  createOk : List Nat → Bool

def Store.init : Store :=
  { nextH := 1, openHs := [], values := [], msgs := [], trace := [] }

/-- close_key: when a key is open, free its stored path and close the
handle. -/
def close_key (p : Parser) (st : Store) : Parser × Store :=
  match p.hkey with
  | some h =>
    ({p with keyName := none, hkey := none},
     {st with openHs := st.openHs.erase h, trace := st.trace ++ [.closeK h]})
  | none => (p, st)

/-- open_key: always close the previous key first, then resolve the root and
create/open the key, storing the new handle and a copy of the path on
success; the Bool is `res == ERROR_SUCCESS`. -/
def open_key (ad : Adapter) (p : Parser) (st : Store) (path : List Nat) :
    Parser × Store × Bool :=
  let c := close_key p st
  if ad.rootOk path then
    if ad.createOk path then
      ({c.1 with hkey := some c.2.nextH, keyName := some path},
       {c.2 with nextH := c.2.nextH + 1, openHs := c.2.nextH :: c.2.openHs,
                 trace := c.2.trace ++ [.createK path (some c.2.nextH)]}, true)
    else
      ({c.1 with hkey := none},
       {c.2 with trace := c.2.trace ++ [.createK path none]}, false)
  else (c.1, c.2, false)

/-- free_parser_data: the staged value buffer is released (the heap free is
conditional on parse_type == REG_DWORD in C, but the observable context
fields are cleared identically). -/
def free_parser_data (p : Parser) : Parser :=
  {p with pdata := none, dataSize := 0}

/-- line_start_state after its line fetch: scan past blanks and dispatch on
the first significant character. -/
def line_start_dispatch (p : Parser) (l : List Nat) : Parser × List Nat :=
  let t := l.dropWhile isBlank
  match t with
  | [] => (p, [])
  | c :: r =>
    if c = 91 then ({p with pstate := .keyNameSt}, r)
    else if c = 64 then ({p with pstate := .defaultValueNameSt}, c :: r)
    else if c = 34 then ({p with pstate := .quotedValueNameSt}, r)
    else (p, c :: r)

/-- key_name_state: abandon the line on leading blank or missing ']'; cut at
the last ']'; a leading '-' is unimplemented key deletion; otherwise open the
key and report a failure; always return to LINE_START. -/
def key_name_state (ad : Adapter) (p : Parser) (st : Store) (cur : List Nat) :
    Parser × Store :=
  if isBlank (cur.headD 0) then ({p with pstate := .lineStartSt}, st)
  else
    match strrchrIdx cur 93 with
    | none => ({p with pstate := .lineStartSt}, st)
    | some k =>
      if cur.headD 0 = 45 then ({p with pstate := .lineStartSt}, st)
      else
        let key := cur.take k
        let o := open_key ad p st key
        if o.2.2 then ({o.1 with pstate := .lineStartSt}, o.2.1)
        else
          ({o.1 with pstate := .lineStartSt},
           {o.2.1 with msgs := o.2.1.msgs ++ [.openKeyFailed key]})

/-- default_value_name_state: clear the pending name and step past '@'. -/
def default_value_name_state (p : Parser) (cur : List Nat) :
    Parser × List Nat :=
  ({p with valueName := none, pstate := .dataStartSt}, cur.drop 1)

/-- quoted_value_name_state: free the previous name, unescape the quoted
name; an unterminated quote abandons the line. -/
def quoted_value_name_state (p : Parser) (st : Store) (cur : List Nat) :
    Parser × Store × List Nat :=
  match unescape_string cur with
  | (some (u, rest), ds) =>
    ({p with valueName := some u, pstate := .dataStartSt},
     {st with msgs := st.msgs ++ ds.map Msg.escapeDiag}, rest)
  | (none, ds) =>
    ({p with valueName := none, pstate := .lineStartSt},
     {st with msgs := st.msgs ++ ds.map Msg.escapeDiag}, cur)

/-- data_start_state: skip blanks, require '=', skip blanks, trim trailing
blanks; a leading '-' is unimplemented value deletion. -/
def data_start_state (p : Parser) (cur : List Nat) : Parser × List Nat :=
  let t := cur.dropWhile isBlank
  match t with
  | 61 :: r =>
    let v := rtrimWs (r.dropWhile isBlank)
    if v.headD 0 = 45 then ({p with pstate := .lineStartSt}, v)
    else ({p with pstate := .dataTypeSt}, v)
  | _ => ({p with pstate := .lineStartSt}, t)

/-- parse_data_type: match the tags `"`, `hex:`, `dword:`, `hex(` in order;
both type fields are first set from the tag's parse type; for `hex(` the
declared type is then re-read from the hexadecimal tag (rejecting an 'x' as
second character, a missing `):`, and a 32-bit overflow), while the parse
type stays REG_BINARY. On failure the mutated fields keep their values, as
in C. -/
def parse_data_type (p : Parser) (cur : List Nat) : Parser × Option (List Nat) :=
  if cur.take 1 = [34] then
    ({p with parseType := 1, dataType := 1}, some (cur.drop 1))
  else if cur.take 4 = [104, 101, 120, 58] then
    ({p with parseType := 3, dataType := 3}, some (cur.drop 4))
  else if cur.take 6 = [100, 119, 111, 114, 100, 58] then
    ({p with parseType := 4, dataType := 4}, some (cur.drop 6))
  else if cur.take 4 = [104, 101, 120, 40] then
    let p1 := {p with parseType := 3, dataType := 3}
    let r := cur.drop 4
    if r.headD 0 = 0 ∨ toLowerW (r.getD 1 0) = 120 then (p1, none)
    else
      let w := wcstoulHex r
      if w.2.2.headD 0 = 41 ∧ w.2.2.getD 1 0 = 58 ∧ ¬ (w.2.1 ∧ w.1 = 4294967295) then
        ({p1 with dataType := w.1}, some (w.2.2.drop 2))
      else (p1, none)
  else (p, none)

/-- data_type_state: delegate to parse_data_type; dispatch REG_SZ to
STRING_DATA, REG_DWORD to DWORD_DATA, and every hex/binary parse type
(`REG_BINARY` and default alike) back to LINE_START. -/
def data_type_state (p : Parser) (st : Store) (cur : List Nat) :
    Parser × Store × List Nat :=
  match parse_data_type p cur with
  | (p1, none) => ({p1 with pstate := .lineStartSt}, st, cur)
  | (p1, some r) =>
    if p1.parseType = 1 then ({p1 with pstate := .stringDataSt}, st, r)
    else if p1.parseType = 4 then ({p1 with pstate := .dwordDataSt}, st, r)
    else ({p1 with pstate := .lineStartSt}, st, r)

/-- string_data_state: unescape the payload; the remainder must be blank or a
';' comment; stage the buffer with size (lstrlenW(data)+1) wide characters in
bytes; on violation release staged data and return to LINE_START. -/
def string_data_state (p : Parser) (st : Store) (cur : List Nat) :
    Parser × Store × List Nat :=
  match unescape_string cur with
  | (some (u, rest), ds) =>
    let st1 := {st with msgs := st.msgs ++ ds.map Msg.escapeDiag}
    let r2 := rest.dropWhile isBlank
    if r2 = [] ∨ r2.headD 0 = 59 then
      ({p with pdata := some (.wstrD u), dataSize := 2 * (lstrlenW u + 1),
               pstate := .setValueSt}, st1, r2)
    else (free_parser_data {p with pstate := .lineStartSt}, st1, r2)
  | (none, ds) =>
    (free_parser_data {p with pstate := .lineStartSt},
     {st with msgs := st.msgs ++ ds.map Msg.escapeDiag}, cur)

/-- dword_data_state: convert the hex-32 payload; stage 4 bytes; on failure
release staged data and return to LINE_START. -/
def dword_data_state (p : Parser) (st : Store) (cur : List Nat) :
    Parser × Store × List Nat :=
  match convert_hex_to_dword cur with
  | some dw =>
    ({p with pdata := some (.dwD dw), dataSize := 4, pstate := .setValueSt},
     st, cur)
  | none => (free_parser_data {p with pstate := .lineStartSt}, st, cur)

/-- The little-endian bytes RegSetValueExW receives for a DWORD. -/
def dwordBytes (v : Nat) : List Nat :=
  [v % 256, v / 256 % 256, v / 65536 % 256, v / 16777216 % 256]

/-- set_value_state: call RegSetValueExW with the open key (possibly NULL),
pending name, declared type and the first data_size bytes of the staged
buffer; release the staged data; return to the dialect's line state. The
write lands in the store's values only for a valid open handle. -/
def set_value_state (p : Parser) (st : Store) (cur : List Nat) :
    Parser × Store × List Nat :=
  let payload : List Nat :=
    match p.pdata with
    | some (.wstrD u) => (u ++ [0]).take (p.dataSize / 2)
    | some (.dwD v) => dwordBytes v
    | none => []
  let st1 := {st with
    trace := st.trace ++ [.setV p.hkey p.valueName p.dataType payload p.dataSize]}
  let st2 :=
    match p.hkey with
    | some h => {st1 with values := st1.values ++ [(h, p.valueName, p.dataType, payload)]}
    | none => st1
  (free_parser_data
    {p with pstate := if p.regVersion = some .v31 then .win31St else .lineStartSt},
   st2, cur)

/-- "HKEY_CLASSES_ROOT", the 17-character Windows 3.1 root token. -/
def hkcr17 : List Nat :=
  wchars ['H','K','E','Y','_','C','L','A','S','S','E','S','_','R','O','O','T']

/-- parse_win31_line_state after its line fetch: lines not starting with
HKEY_CLASSES_ROOT are skipped; the key is the text before the first
whitespace; blanks, one optional '=' and at most one space are trimmed from
the value; the key is opened (a failure is reported and skips the line) and
the rest of the line is staged as an unnamed REG_SZ value. -/
def parse_win31_line_state (ad : Adapter) (p : Parser) (st : Store) (l : List Nat) :
    Parser × Store × List Nat :=
  if l.take 17 ≠ hkcr17 then (p, st, l)
  else
    let keyEnd := (l.takeWhile (fun c => !(isspaceW c))).length
    let v1 := (l.drop keyEnd).dropWhile isBlank
    let v2 := if v1.headD 0 = 61 then v1.drop 1 else v1
    let v3 := if v2.headD 0 = 32 then v2.drop 1 else v2
    let key := l.take keyEnd
    let o := open_key ad p st key
    if o.2.2 then
      ({o.1 with valueName := none, dataType := 1,
                 pdata := some (.wstrD v3), dataSize := 2 * (v3.length + 1),
                 pstate := .setValueSt}, o.2.1, v3)
    else
      (o.1, {o.2.1 with msgs := o.2.1.msgs ++ [.openKeyFailed key]}, l)

/-- States whose handlers begin by fetching a line from the line source. -/
def isFetchState : PState → Bool
  | .headerSt => true
  | .win31St => true
  | .lineStartSt => true
  | _ => false

/-- One invocation of the current (non-fetching) state's handler, as done by
the main loop `pos = (parser_funcs[parser.state])(&parser, pos)`. -/
def chainStep (ad : Adapter) (p : Parser) (st : Store) (cur : List Nat) :
    Parser × Store × List Nat :=
  match p.pstate with
  | .keyNameSt => let r := key_name_state ad p st cur; (r.1, r.2, cur)
  | .defaultValueNameSt =>
    let r := default_value_name_state p cur; (r.1, st, r.2)
  | .quotedValueNameSt => quoted_value_name_state p st cur
  | .dataStartSt => let r := data_start_state p cur; (r.1, st, r.2)
  | .dataTypeSt => data_type_state p st cur
  | .stringDataSt => string_data_state p st cur
  | .dwordDataSt => dword_data_state p st cur
  | .setValueSt => set_value_state p st cur
  | _ => (p, st, cur)

/-- Run the main loop until the next handler would fetch a line. Any chain of
non-fetching handlers has length at most 5, so the callers' fuel of 8 is
never exhausted. -/
def runChain (ad : Adapter) : Nat → Parser → Store → List Nat → Parser × Store
  | 0, p, st, _ => (p, st)
  | fuel + 1, p, st, cur =>
    if isFetchState p.pstate then (p, st)
    else
      let r := chainStep ad p st cur
      runChain ad fuel r.1 r.2.1 r.2.2

/-- The main loop of reg_import over the line source's lines: each fetching
state consumes one line (header_state prepends two_wchars in ANSI mode as the
encoding check consumed them) and the in-line handler chain runs to the next
fetch; an unsupported or invalid header stops the loop (get_line(NULL)). -/
def runLines (ad : Adapter) : List (List Nat) → Parser → Store → Parser × Store
  | [], p, st => (p, st)
  | l :: ls, p, st =>
    match p.pstate with
    | .headerSt =>
      let hdr := if p.isUnicode then l else p.twoWchars ++ l
      let p1 := {p with regVersion := some (parse_file_header hdr)}
      match parse_file_header hdr with
      | .v31 => runLines ad ls {p1 with pstate := .win31St} st
      | .v40 => runLines ad ls {p1 with pstate := .lineStartSt} st
      | .v50 => runLines ad ls {p1 with pstate := .lineStartSt} st
      | _ => (p1, st)
    | .win31St =>
      let r := parse_win31_line_state ad p st l
      let r2 := runChain ad 8 r.1 r.2.1 r.2.2
      runLines ad ls r2.1 r2.2
    | .lineStartSt =>
      let r := line_start_dispatch p l
      let r2 := runChain ad 8 r.1 st r.2
      runLines ad ls r2.1 r2.2
    | _ => (p, st)

/-- The initial struct parser of reg_import. -/
def initParser (isU : Bool) (tw : List Nat) : Parser :=
  { isUnicode := isU, twoWchars := tw, regVersion := none, hkey := none,
    keyName := none, valueName := none, parseType := 0, dataType := 0,
    pdata := none, dataSize := 0, pstate := .headerSt }

/-- reg_import after the two-byte encoding check, on the lines the line
source yields: run the parser loop, then fail (exit code 1) on an invalid
header or on the unimplemented 4.0/5.0 write path; otherwise close the key
and succeed with exit code 0. -/
def reg_import (ad : Adapter) (isU : Bool) (tw : List Nat)
    (lines : List (List Nat)) : Nat × Parser × Store :=
  let r := runLines ad lines (initParser isU tw) Store.init
  match r.1.regVersion with
  | some .invalid => (1, r.1, r.2)
  | some .v40 => (1, r.1, r.2)
  | some .v50 => (1, r.1, r.2)
  | _ =>
    let c := close_key r.1 r.2
    (0, c.1, c.2)

/-! Helper facts about handler steps, used to settle the run-level claims. -/

/-- Concrete adapters used by witnesses and counterexamples. -/
def adapterAllOk : Adapter := ⟨fun _ => true, fun _ => true⟩

def adapterNoCreate : Adapter := ⟨fun _ => true, fun _ => false⟩

/-- The value line `"Name"=hex(7):41,00,42,00` of the spec's scenario 5. -/
def lineHex7 : List Nat :=
  wchars ['"','N','a','m','e','"','=','h','e','x','(','7',')',':',
          '4','1',',','0','0',',','4','2',',','0','0']

/-- The key line `[HKCU\Foo]` used by concrete runs. -/
def lineKeyFoo : List Nat := wchars ['[','H','K','C','U','\\','F','o','o',']']

/-- An adapter that creates every key except HKCU\Bar, and the key line
`[HKCU\Bar]`, exercising runs that mix successful and failing key opens. -/
def adapterNoBar : Adapter :=
  ⟨fun _ => true, fun path => path != wchars ['H','K','C','U','\\','B','a','r']⟩

def lineKeyBar : List Nat := wchars ['[','H','K','C','U','\\','B','a','r',']']

/-- Whether a trace fragment contains a successful RegCreateKeyExW. -/
def hasOpen : List Op → Bool
  | [] => false
  | .createK _ (some _) :: _ => true
  | _ :: tr => hasOpen tr

/-- No value write lands in the store before the first successful key
creation of the trace fragment: every RegSetValueExW that precedes it
carries a NULL handle. -/
def writesAfterOpen : List Op → Bool
  | [] => true
  | .createK _ (some _) :: _ => true
  | .setV (some _) _ _ _ _ :: _ => false
  | _ :: tr => writesAfterOpen tr

/-- The store delta of a step started with no open key: the trace grows by a
fragment with no value write before its first successful key creation, and
while no key has been opened successfully the parser still holds no key and
the stored values are unchanged. -/
def KeylessDelta (p' : Parser) (st st' : Store) : Prop :=
  ∃ d, st'.trace = st.trace ++ d ∧ writesAfterOpen d = true ∧
    (hasOpen d = false → p'.hkey = none ∧ st'.values = st.values)

/-! Claim C7: key-handle discipline. -/

/-- The open-handle invariant: the store's open handles are exactly the
parser's current key handle, and every open handle is below the fresh-handle
counter. -/
def handleInv (p : Parser) (st : Store) : Prop :=
  st.openHs = p.hkey.toList ∧ ∀ h ∈ st.openHs, h < st.nextH

/-! Claim C9: the byte-exact model of get_lineA (import.c lines 639-695). -/

/-- The static state of get_lineA across calls: the buffer capacity `size`
(0 before the first call and after cleanup), the buffer's string content
`buf`, the offset of the `next` pointer into it (none once fread returned 0,
standing for next = NULL), and the unread stream bytes. -/
structure LineSrc where
  size : Nat
  buf : List Nat
  nextOff : Option Nat
  rest : List Nat
deriving DecidableEq

/-- Index of the first CR or LF, what strpbrk(s, "CRLF") scans for. -/
def findTermIdx : List Nat → Option Nat
  | [] => none
  | c :: r => if c = 13 ∨ c = 10 then some 0 else (findTermIdx r).map (· + 1)

/-- strpbrk(buf + off, "\r\n") as an index into buf. -/
def strpbrkIdx (buf : List Nat) (off : Nat) : Option Nat :=
  (findTermIdx (buf.drop off)).map (· + off)

/-- The while loop of get_lineA. `off` is both `line` and `next` (they are
equal at every loop entry). On a terminator: cut there, step next past it --
and additionally past a following LF when the terminator is CR and the NEXT
BUFFER CHARACTER is LF -- and return the line. Without one: memmove the
unterminated tail to the front, double the capacity when fewer than 3 chars
of slack remain, fread into the remainder; a zero-length read returns the
residual as the final line with next = NULL. The fuel only bounds the
iterations; callers pass more than enough. -/
def lineALoop : Nat → Nat → List Nat → Nat → List Nat →
    Option (List Nat) × LineSrc
  | 0, size, buf, _, rest => (none, ⟨size, buf, none, rest⟩)
  | fuel + 1, size, buf, off, rest =>
    match strpbrkIdx buf off with
    | none =>
      let len := buf.length - off
      let buf1 := buf.drop off
      let size1 := if size - len < 3 then size * 2 else size
      let chunk := rest.take (size1 - len - 1)
      if chunk.length = 0 then
        (some buf1, ⟨size1, buf1, none, rest.drop (size1 - len - 1)⟩)
      else
        lineALoop fuel size1 (buf1 ++ chunk) 0 (rest.drop (size1 - len - 1))
    | some pIdx =>
      let nextOff1 :=
        pIdx + 1 + (if buf.getD pIdx 0 = 13 ∧ buf.getD (pIdx + 1) 0 = 10
                    then 1 else 0)
      (some ((buf.drop off).take (pIdx - off)), ⟨size, buf, some nextOff1, rest⟩)

/-- REG_VAL_BUF_SIZE, the initial buffer capacity. -/
def REG_VAL_BUF_SIZE : Nat := 4096

/-- One invocation of get_lineA on a live FILE*: first-call initialization,
then the read loop; with next already NULL the loop is skipped and the
static state is released (cleanup). GetWideString is the identity on these
single-byte code units. get_lineW is the same algorithm over wide units. -/
def get_lineA_call (st : LineSrc) : Option (List Nat) × LineSrc :=
  let st1 := if st.size = 0 then
    (⟨REG_VAL_BUF_SIZE, [], some 0, st.rest⟩ : LineSrc) else st
  match st1.nextOff with
  | none => (none, ⟨0, [], none, st1.rest⟩)
  | some off => lineALoop (st1.rest.length + 2) st1.size st1.buf off st1.rest

/-- The lines produced by calling get_lineA until it returns NULL. -/
def getLinesGo : Nat → LineSrc → List (List Nat)
  | 0, _ => []
  | fuel + 1, st =>
    match get_lineA_call st with
    | (none, _) => []
    | (some l, st1) => l :: getLinesGo fuel st1

def getLinesA (stream : List Nat) : List (List Nat) :=
  getLinesGo (stream.length + 2) ⟨0, [], some 0, stream⟩

/-- The logical lines of a stream: split at each CR, LF or CRLF terminator
(CRLF is one terminator); the residual after the last terminator is the
final line, matching get_lineA's end-of-stream return. -/
def splitLines : List Nat → List (List Nat)
  | [] => [[]]
  | 13 :: 10 :: r => [] :: splitLines r
  | 13 :: r => [] :: splitLines r
  | 10 :: r => [] :: splitLines r
  | c :: r =>
    match splitLines r with
    | l :: ls => (c :: l) :: ls
    | [] => [[c]]

/-- The failing input for claim C9: a 4094-character line, a CRLF
terminator that straddles the first 4095-byte fread boundary, then `b`. -/
def c9input : List Nat := List.replicate 4094 97 ++ [13, 10, 98]

/-! The theorems: one per claim of the specification, with the helper
lemmas they build on. -/

theorem header31_length : header31.length = 7 := by decide

theorem take7_eq_iff_starts31 (t : List Nat) :
    t.take 7 = header31 ↔ header31 <+: t := by
  constructor
  · intro h
    exact h ▸ List.take_prefix 7 t
  · intro h
    have := List.prefix_iff_eq_take.mp h
    rw [header31_length] at this
    exact this.symm

/-- Claim C1: parse_file_header skips leading blanks, then classifies:
Legacy31/V40/V50 on an exact match with "REGEDIT", "REGEDIT4",
"Windows Registry Editor Version 5.00" respectively; FuzzyHeader exactly when
the remaining text starts with the 7 characters "REGEDIT" but matches none of
the exact headers; Invalid in all other cases. -/
theorem parse_file_header_classification (s : List Nat) :
    (parse_file_header s = .v31 ↔ skipWs s = header31) ∧
    (parse_file_header s = .v40 ↔ skipWs s = header40) ∧
    (parse_file_header s = .v50 ↔ skipWs s = header50) ∧
    (parse_file_header s = .fuzzy ↔
      (header31 <+: skipWs s ∧ skipWs s ≠ header31 ∧ skipWs s ≠ header40 ∧
        skipWs s ≠ header50)) ∧
    (parse_file_header s = .invalid ↔
      (¬ header31 <+: skipWs s ∧ skipWs s ≠ header31 ∧ skipWs s ≠ header40 ∧
        skipWs s ≠ header50)) := by
  have hne1 : header31 ≠ header40 := by decide
  have hne2 : header31 ≠ header50 := by decide
  have hne3 : header40 ≠ header50 := by decide
  have hp40 : header31 <+: header40 := by decide
  have hnp50 : ¬ header31 <+: header50 := by decide
  unfold parse_file_header
  simp only [take7_eq_iff_starts31]
  split_ifs with e1 e2 e3 e4 <;>
    refine ⟨?_, ?_, ?_, ?_, ?_⟩ <;> simp_all

/-- Claim C6 counterexample: the empty string consists of 0 hex digits
surrounded by no whitespace and followed by no comment, so the claim as
stated accepts it, but convert_hex_to_dword rejects it (`if (!*str) goto
error` fires after skipping leading whitespace). -/
theorem convert_hex_empty_rejected :
    claimHex32Accepts [] = true ∧ convert_hex_to_dword [] = none := by decide

/-- Claim C6 amended: hex-32 conversion accepts exactly the strings of the
claim's accept-set (0 to 8 hex digits with optional surrounding blanks and an
optional ';' comment) that are nonempty after skipping leading blanks; in
particular 0 digits are accepted only when a ';' comment follows. 9 or more
digits and any other trailing non-comment content are rejected. -/
theorem convert_hex_to_dword_accepts (s : List Nat) :
    (convert_hex_to_dword s).isSome ↔
      (claimHex32Accepts s = true ∧ skipWs s ≠ []) := by
  simp only [convert_hex_to_dword, claimHex32Accepts]
  split_ifs with h1 h2 h3 <;>
    simp_all [List.isEmpty_iff, not_or]

theorem unescapeLoop_eq_spec (s : List Nat) (h0 : 0 ∉ s) :
    ∀ n i, s.length - i < n → unescapeLoop s n i = unescapeSpec (s.drop i) := by
  intro n
  induction n with
  | zero => intro i hi; omega
  | succ n ih =>
    intro i hi
    rw [unescapeLoop]
    by_cases h : i < s.length
    · have hdrop : s.drop i = s[i] :: s.drop (i + 1) := List.drop_eq_getElem_cons h
      have hat : strAt s i = s[i] := List.getD_eq_getElem s 0 h
      rw [if_pos h, hdrop]
      by_cases hc : s[i] = 92
      · by_cases h1 : i + 1 < s.length
        · have hat1 : strAt s (i + 1) = s[i + 1] := List.getD_eq_getElem s 0 h1
          have hdrop1 : s.drop (i + 1) = s[i + 1] :: s.drop (i + 2) :=
            List.drop_eq_getElem_cons h1
          have hne0 : s[i + 1] ≠ 0 := fun hz => h0 (hz ▸ List.getElem_mem h1)
          have hrec := ih (i + 2) (by omega)
          rw [hdrop1]
          simp only [unescapeSpec, hat, hat1, hc, hrec]
          by_cases e1 : s[i + 1] = 110
          · simp [e1]
          · by_cases e2 : s[i + 1] = 114
            · simp [e1, e2]
            · by_cases e3 : s[i + 1] = 48
              · simp [e1, e2, e3]
              · by_cases e4 : s[i + 1] = 92 ∨ s[i + 1] = 34
                · simp only [if_neg e1, if_neg e2, if_neg e3, if_pos e4]
                  norm_num
                · simp only [if_neg e1, if_neg e2, if_neg e3, if_neg e4, if_neg hne0]
                  norm_num
        · have hat1 : strAt s (i + 1) = 0 :=
            List.getD_eq_default s 0 (by omega)
          have hdrop1 : s.drop (i + 1) = [] := List.drop_eq_nil_of_le (by omega)
          rw [hdrop1]
          simp only [unescapeSpec, hat, hat1, hc]
          norm_num
      · by_cases hq : s[i] = 34
        · cases hd1 : s.drop (i + 1) with
          | nil => simp only [unescapeSpec, hat, hq]; norm_num
          | cons x xs => simp only [unescapeSpec, hat, hq]; norm_num
        · have hrec := ih (i + 1) (by omega)
          cases hd1 : s.drop (i + 1) with
          | nil =>
            rw [hd1] at hrec
            simp [unescapeSpec, hat, hc, hq, hrec, consHead]
          | cons x xs =>
            rw [hd1] at hrec
            simp [unescapeSpec, hat, hc, hq, hrec]
    · rw [if_neg h, List.drop_eq_nil_of_le (by omega)]
      rfl

/-- Claim C5: unescape_string follows the claim's unescaping rule exactly (on
NUL-free inputs, the only ones the line source produces): characters are
copied verbatim except that `\n`, `\r`, `\0`, `\\`, `\"` become newline,
carriage return, NUL, backslash and quote; any other escaped character is
copied literally with a diagnostic; the first unescaped double quote
terminates the string with success; absence of a terminating quote fails. -/
theorem unescape_string_matches_spec (s : List Nat) (h0 : 0 ∉ s) :
    unescape_string s = unescapeSpec s := by
  have := unescapeLoop_eq_spec s h0 (s.length + 1) 0 (by omega)
  simpa [unescape_string] using this

/-- Witness for claim C5 at the concrete payload `a\n"x`. -/
theorem unescape_string_matches_spec_witness :
    unescape_string (wchars ['a', '\\', 'n', '"', 'x']) =
      unescapeSpec (wchars ['a', '\\', 'n', '"', 'x']) :=
  unescape_string_matches_spec _ (by decide)

/-- parse_data_type mutates only the two type fields. -/
theorem parse_data_type_fields (p : Parser) (cur : List Nat) :
    (parse_data_type p cur).1.regVersion = p.regVersion ∧
    (parse_data_type p cur).1.pstate = p.pstate ∧
    (parse_data_type p cur).1.hkey = p.hkey := by
  simp only [parse_data_type]
  repeat' first | split_ifs | split
  all_goals simp_all

/-- No handler in the in-line chain changes the registry file version, and
none of them ever enters the HEADER state. -/
theorem chainStep_regVersion (ad : Adapter) (p : Parser) (st : Store)
    (cur : List Nat) :
    (chainStep ad p st cur).1.regVersion = p.regVersion ∧
    ((chainStep ad p st cur).1.pstate = .headerSt → p.pstate = .headerSt) := by
  cases hs : p.pstate
  case dataTypeSt =>
    have hf := parse_data_type_fields p cur
    simp only [chainStep, hs, data_type_state]
    rcases hpd : parse_data_type p cur with ⟨p1, ro⟩
    rw [hpd] at hf
    cases ro
    · simp_all
    · dsimp only []
      split_ifs <;> simp_all
  all_goals
    simp only [chainStep, hs, key_name_state, default_value_name_state,
      quoted_value_name_state, data_start_state,
      string_data_state, dword_data_state, set_value_state,
      open_key, close_key, free_parser_data]
  all_goals repeat' first | split_ifs | split
  all_goals simp_all

theorem runChain_regVersion (ad : Adapter) (fuel : Nat) :
    ∀ (p : Parser) (st : Store) (cur : List Nat),
    (runChain ad fuel p st cur).1.regVersion = p.regVersion ∧
    ((runChain ad fuel p st cur).1.pstate = .headerSt → p.pstate = .headerSt) := by
  induction fuel with
  | zero => intro p st cur; simp [runChain]
  | succ n ih =>
    intro p st cur
    rw [runChain]
    split_ifs with hf
    · exact ⟨rfl, fun h => h⟩
    · have h1 := chainStep_regVersion ad p st cur
      have h2 := ih (chainStep ad p st cur).1 (chainStep ad p st cur).2.1
        (chainStep ad p st cur).2.2
      exact ⟨h2.1.trans h1.1, fun h => h1.2 (h2.2 h)⟩

theorem win31_regVersion (ad : Adapter) (p : Parser) (st : Store)
    (l : List Nat) :
    (parse_win31_line_state ad p st l).1.regVersion = p.regVersion ∧
    ((parse_win31_line_state ad p st l).1.pstate = .headerSt →
      p.pstate = .headerSt) := by
  simp only [parse_win31_line_state, open_key, close_key]
  repeat' first | split_ifs | split
  all_goals simp_all

theorem dispatch_regVersion (p : Parser) (l : List Nat) :
    (line_start_dispatch p l).1.regVersion = p.regVersion ∧
    ((line_start_dispatch p l).1.pstate = .headerSt →
      p.pstate = .headerSt) := by
  simp only [line_start_dispatch]
  repeat' first | split_ifs | split
  all_goals simp_all

/-- Once header_state has run, no later line changes reg_version. -/
theorem runLines_regVersion (ad : Adapter) (ls : List (List Nat)) :
    ∀ (p : Parser) (st : Store), p.pstate ≠ .headerSt →
    (runLines ad ls p st).1.regVersion = p.regVersion := by
  induction ls with
  | nil => intro p st _; rfl
  | cons l ls ih =>
    intro p st hp
    rw [runLines]
    cases hs : p.pstate with
    | headerSt => exact absurd hs hp
    | win31St =>
      dsimp only []
      have h1 := win31_regVersion ad p st l
      have h2 := runChain_regVersion ad 8 (parse_win31_line_state ad p st l).1
        (parse_win31_line_state ad p st l).2.1
        (parse_win31_line_state ad p st l).2.2
      have h3 := ih (runChain ad 8 (parse_win31_line_state ad p st l).1
          (parse_win31_line_state ad p st l).2.1
          (parse_win31_line_state ad p st l).2.2).1
        (runChain ad 8 (parse_win31_line_state ad p st l).1
          (parse_win31_line_state ad p st l).2.1
          (parse_win31_line_state ad p st l).2.2).2
        (fun hh => hp (h1.2 (h2.2 hh)))
      rw [h3, h2.1, h1.1]
    | lineStartSt =>
      dsimp only []
      have h1 := dispatch_regVersion p l
      have h2 := runChain_regVersion ad 8 (line_start_dispatch p l).1 st
        (line_start_dispatch p l).2
      have h3 := ih (runChain ad 8 (line_start_dispatch p l).1 st
          (line_start_dispatch p l).2).1
        (runChain ad 8 (line_start_dispatch p l).1 st
          (line_start_dispatch p l).2).2
        (fun hh => hp (h1.2 (h2.2 hh)))
      rw [h3, h2.1, h1.1]
    | keyNameSt => rfl
    | defaultValueNameSt => rfl
    | quotedValueNameSt => rfl
    | dataStartSt => rfl
    | dataTypeSt => rfl
    | stringDataSt => rfl
    | dwordDataSt => rfl
    | setValueSt => rfl

/-- Claim C2: whenever the header line classifies as version 4.0 or 5.0
(header_state prepends the two encoding-check characters in ANSI mode), the
run of reg_import ends with the failure exit code 1 -- the acknowledged
"not yet implemented" outcome -- no matter what the body lines contain, even
when every one of them parses without error. -/
theorem reg_import_v40_v50_fails (ad : Adapter) (isU : Bool) (tw l : List Nat)
    (ls : List (List Nat))
    (h : parse_file_header (if isU then l else tw ++ l) = .v40 ∨
         parse_file_header (if isU then l else tw ++ l) = .v50) :
    (reg_import ad isU tw (l :: ls)).1 = 1 := by
  have hver : ∀ (p : Parser) (st : Store), p.pstate = .lineStartSt →
      (runLines ad ls p st).1.regVersion = p.regVersion := by
    intro p st hp
    exact runLines_regVersion ad ls p st (by rw [hp]; intro hc; cases hc)
  rcases h with h | h <;>
    simp only [reg_import, runLines, initParser, h] <;>
    rw [hver _ _ rfl]

/-- Witness for claim C2: the two-line REGEDIT4 file with one key line. -/
theorem reg_import_v40_v50_fails_witness :
    (reg_import adapterAllOk true [] [header40]).1 = 1 :=
  reg_import_v40_v50_fails adapterAllOk true [] header40 []
    (Or.inl (by decide))

/-- Claim C3 counterexample: the ANSI input whose header line is "REGEDITX"
(classified FuzzyHeader) followed by a key line and a value line makes
reg_import return exit code 0, not the failure exit code 1 the claim states;
the body is indeed never imported (the adapter trace stays empty). -/
theorem reg_import_fuzzy_returns_zero :
    (reg_import adapterAllOk true []
      [wchars ['R','E','G','E','D','I','T','X'],
       wchars ['[','H','K','C','U','\\','F','o','o',']'],
       wchars ['"','B','a','r','"','=','"','B','a','z','"']]).1 = 0 ∧
    (reg_import adapterAllOk true []
      [wchars ['R','E','G','E','D','I','T','X'],
       wchars ['[','H','K','C','U','\\','F','o','o',']'],
       wchars ['"','B','a','r','"','=','"','B','a','z','"']]).2.2.trace = [] := by
  decide

/-- Claim C3 amended: for every input whose header classifies as FuzzyHeader,
reg_import stops before reading any body line and terminates with the success
exit code 0 (the recognized-but-unsupported file is not an error), importing
nothing: the store is left in its initial state. -/
theorem reg_import_fuzzy_imports_nothing (ad : Adapter) (isU : Bool)
    (tw l : List Nat) (ls : List (List Nat))
    (h : parse_file_header (if isU then l else tw ++ l) = .fuzzy) :
    (reg_import ad isU tw (l :: ls)).1 = 0 ∧
    (reg_import ad isU tw (l :: ls)).2.2 = Store.init := by
  simp [reg_import, runLines, initParser, h, close_key]

/-- Witness for the amended claim C3 at the "REGEDIT 4" header (blank between
REGEDIT and 4, hence fuzzy). -/
theorem reg_import_fuzzy_imports_nothing_witness :
    (reg_import adapterAllOk true []
      [wchars ['R','E','G','E','D','I','T',' ','4']]).1 = 0 ∧
    (reg_import adapterAllOk true []
      [wchars ['R','E','G','E','D','I','T',' ','4']]).2.2 = Store.init :=
  reg_import_fuzzy_imports_nothing adapterAllOk true [] _ [] (by decide)

/-! Claim C4: the generic hex(N) form. -/

theorem takeWhile_stop {α} (p : α → Bool) (a : List α) (c : α) (d : List α)
    (ha : ∀ x ∈ a, p x = true) (hc : p c = false) :
    (a ++ c :: d).takeWhile p = a ∧ (a ++ c :: d).dropWhile p = c :: d := by
  induction a with
  | nil => simp [List.takeWhile_cons, List.dropWhile_cons, hc]
  | cons x xs ih =>
    have hx : p x = true := ha x (by simp)
    have ih2 := ih (fun y hy => ha y (by simp [hy]))
    simp [List.takeWhile_cons, List.dropWhile_cons, hx, ih2.1, ih2.2]

theorem isxdigitW_range (c : Nat) (h : isxdigitW c = true) :
    48 ≤ c ∧ c ≤ 102 ∧ toLowerW c ≠ 120 ∧ isspaceW c = false ∧
      c ≠ 88 ∧ c ≠ 120 := by
  simp only [isxdigitW, Bool.or_eq_true, Bool.and_eq_true,
    decide_eq_true_eq] at h
  unfold toLowerW isspaceW
  refine ⟨by omega, by omega, ?_, ?_, by omega, by omega⟩
  · split_ifs <;> omega
  · simp only [Bool.or_eq_false_iff, beq_eq_false_iff_ne]
    omega

theorem wcstoulHex_digits (d e : Nat) (dt erest : List Nat)
    (hd : isxdigitW d = true) (hdt : ∀ c ∈ dt, isxdigitW c = true)
    (he : isxdigitW e = false) (he120 : e ≠ 120) (he88 : e ≠ 88)
    (hv : hexVal (d :: dt) < 4294967296) :
    wcstoulHex (d :: (dt ++ e :: erest)) = (hexVal (d :: dt), false, e :: erest) := by
  have hdr := isxdigitW_range d hd
  have htw := takeWhile_stop isxdigitW (d :: dt) e erest
    (by
      intro x hx
      rcases List.mem_cons.mp hx with h1 | h1
      · exact h1 ▸ hd
      · exact hdt x h1) he
  simp only [List.cons_append] at htw
  have hX : (dt ++ e :: erest).getD 0 0 ≠ 120 ∧ (dt ++ e :: erest).getD 0 0 ≠ 88 := by
    cases dt with
    | nil => simpa using ⟨he120, he88⟩
    | cons f ft =>
      have := isxdigitW_range f (hdt f (by simp))
      simp only [List.cons_append, List.getD_cons_zero]
      omega
  have h45 : ¬(d = 45 ∨ d = 43) := by omega
  have h48 : ¬(d = 48 ∧ ((dt ++ e :: erest).getD 0 0 = 120 ∨
      (dt ++ e :: erest).getD 0 0 = 88) ∧
      isxdigitW ((dt ++ e :: erest).getD 1 0) = true) := by
    rintro ⟨-, h2, -⟩
    rcases h2 with h2 | h2
    · exact hX.1 h2
    · exact hX.2 h2
  have hne : ¬ d = 45 := by omega
  have hlt : ¬ 4294967296 ≤ hexVal (d :: dt) := by omega
  have hdw : List.dropWhile isxdigitW (dt ++ e :: erest) = e :: erest := by
    have h2 := htw.2
    rw [List.dropWhile_cons, if_pos hd] at h2
    exact h2
  have htk : List.takeWhile isxdigitW (dt ++ e :: erest) = dt := by
    have h1 := htw.1
    rw [List.takeWhile_cons, if_pos hd] at h1
    simpa using h1
  simp only [wcstoulHex, List.dropWhile_cons, hdr.2.2.2.1, Bool.false_eq_true,
    if_false, List.headD_cons, List.getD_cons_succ, List.getD_cons_zero,
    h45, h48, if_neg h45, if_neg h48]
  simp [htk, hdw, hne, hlt, hd]

/-- Claim C4 counterexample: importing a 5.00 file with
`"Name"=hex(7):41,00,42,00` under an always-succeeding adapter stages the
declared type 7 with parse type REG_BINARY (3), but the comma-separated
payload is never decoded and no SetValue transition is taken: the adapter
trace holds only the key creation and the store receives no value, contrary
to the claim's "decodes the payload and commits through SetValue exactly as
for the string and dword forms". -/
theorem hex7_staged_but_not_committed :
    (reg_import adapterAllOk true [] [header50, lineKeyFoo, lineHex7]).2.1.dataType = 7 ∧
    (reg_import adapterAllOk true [] [header50, lineKeyFoo, lineHex7]).2.1.parseType = 3 ∧
    (reg_import adapterAllOk true [] [header50, lineKeyFoo, lineHex7]).2.2.values = [] ∧
    (reg_import adapterAllOk true [] [header50, lineKeyFoo, lineHex7]).2.2.trace =
      [Op.createK (wchars ['H','K','C','U','\\','F','o','o']) (some 1)] := by
  decide

/-- Claim C4 amended: for every value line whose data uses the generic
hex(N): form with a valid hexadecimal tag (1 or more hex digits whose value
fits 32 bits), the parser stages the declared type N (data_type := N) with
parse type REG_BINARY, but then data_type_state transitions straight back to
LineStart without decoding the payload bytes and without any SetValue
transition: the staged types are discarded and nothing is committed to the
store (hex/hex(N) import is unimplemented in this revision). The cursor list
spells `hex(` (104,101,120,40), the tag digits, `):` (41,58) and the payload.
-/
theorem hex_tag_staged_not_committed (ad : Adapter) (p : Parser) (st : Store)
    (d : Nat) (dt rest : List Nat)
    (hp : p.pstate = .dataTypeSt)
    (hd : isxdigitW d = true) (hdt : ∀ c ∈ dt, isxdigitW c = true)
    (hv : hexVal (d :: dt) < 4294967296) :
    runChain ad 8 p st (104 :: 101 :: 120 :: 40 :: (d :: (dt ++ 41 :: 58 :: rest))) =
      ({p with parseType := 3, dataType := hexVal (d :: dt),
               pstate := .lineStartSt}, st) := by
  have hdr := isxdigitW_range d hd
  have hw := wcstoulHex_digits d 41 dt (58 :: rest) hd hdt (by decide)
    (by decide) (by decide) hv
  have hg : toLowerW ((dt ++ 41 :: 58 :: rest).getD 0 0) ≠ 120 := by
    cases dt with
    | nil => norm_num [toLowerW]
    | cons f ft =>
      have := isxdigitW_range f (hdt f (by simp))
      simp only [List.cons_append, List.getD_cons_zero]
      exact this.2.2.1
  have hd0 : d ≠ 0 := by omega
  have hpd : parse_data_type p
      (104 :: 101 :: 120 :: 40 :: (d :: (dt ++ 41 :: 58 :: rest))) =
      ({p with parseType := 3, dataType := hexVal (d :: dt)}, some rest) := by
    simp only [parse_data_type]
    norm_num [List.take_succ_cons, List.headD_cons, List.getD_cons_succ,
      List.getD_cons_zero, hd0, hg, hw]
    intro hx
    rw [← List.getD_eq_getElem (dt ++ 41 :: 58 :: rest) 0 (by simp)] at hx
    exact absurd hx hg
  rw [show (8 : Nat) = 7 + 1 from rfl, runChain]
  rw [if_neg (by simp [hp, isFetchState])]
  simp only [chainStep, hp, data_type_state, hpd]
  norm_num
  rw [show (7 : Nat) = 6 + 1 from rfl, runChain]
  simp [isFetchState]

/-- Witness for the amended claim C4 at tag 7 (digit code 55). -/
theorem hex_tag_staged_not_committed_witness :
    runChain adapterAllOk 8 {initParser true [] with pstate := .dataTypeSt}
        Store.init
        (104 :: 101 :: 120 :: 40 ::
          (55 :: ([] ++ 41 :: 58 :: wchars ['4','1',',','0','0']))) =
      ({{initParser true [] with pstate := .dataTypeSt} with
          parseType := 3, dataType := hexVal (55 :: []),
          pstate := .lineStartSt}, Store.init) :=
  hex_tag_staged_not_committed adapterAllOk _ Store.init 55 []
    (wchars ['4','1',',','0','0']) rfl (by decide) (by simp) (by decide)

/-! Claim C10: the staged size of a REG_SZ value is computed with lstrlenW,
so an embedded NUL written by the `\0` escape silently truncates the value. -/

theorem take_append_succ {α} (a : List α) (b : α) (c : List α) :
    (a ++ b :: c).take (a.length + 1) = a ++ [b] := by
  induction a with
  | nil => simp
  | cons x xs ih => simp [List.take_succ_cons, ih]

/-- Claim C10: for every REG_SZ payload whose unescaped form is
u1 ++ [NUL] ++ u2 (a `\0` escape occurred after u1), string_data_state
stages data_size = (lstrlenW + 1) wide characters = 2*(|u1| + 1) bytes --
counted only up to the first NUL -- and the subsequent SetValue transition
writes exactly u1 followed by one NUL: every character of u2, though copied
into the buffer by unescape_string, is silently excluded from the value
committed to the store. -/
theorem string_nul_truncates (ad : Adapter) (p : Parser) (st : Store)
    (cur u1 u2 rest ds : List Nat) (hk : Nat)
    (hp : p.pstate = .stringDataSt)
    (hkey : p.hkey = some hk)
    (hu : unescape_string cur = (some (u1 ++ 0 :: u2, rest), ds))
    (hr : rest.dropWhile isBlank = [] ∨ (rest.dropWhile isBlank).headD 0 = 59)
    (h01 : 0 ∉ u1) :
    (string_data_state p st cur).1.dataSize = 2 * (u1.length + 1) ∧
    (runChain ad 8 p st cur).2.values =
      st.values ++ [(hk, p.valueName, p.dataType, u1 ++ [0])] := by
  have hlstr : lstrlenW (u1 ++ 0 :: u2) = u1.length := by
    have ht := takeWhile_stop (fun c => c != 0) u1 0 u2
      (by
        intro x hx
        simp only [ne_eq, bne_iff_ne]
        exact fun hz => h01 (hz ▸ hx)) (by decide)
    simp [lstrlenW, ht.1]
  constructor
  · simp only [string_data_state, hu]
    rw [if_pos hr]
    simp [hlstr]
  · rw [show (8 : Nat) = 7 + 1 from rfl, runChain,
        if_neg (by simp [hp, isFetchState])]
    simp only [chainStep, hp, string_data_state, hu]
    rw [if_pos hr]
    rw [show (7 : Nat) = 6 + 1 from rfl, runChain,
        if_neg (by simp [isFetchState])]
    simp only [chainStep, set_value_state, hkey]
    have hsz : 2 * (lstrlenW (u1 ++ 0 :: u2) + 1) / 2 = u1.length + 1 := by
      rw [hlstr, Nat.mul_div_cancel_left _ (by norm_num)]
    have hpay : ((u1 ++ 0 :: u2) ++ [0]).take (u1.length + 1) = u1 ++ [0] := by
      rw [List.append_assoc, List.cons_append]
      exact take_append_succ u1 0 (u2 ++ [0])
    rw [show (6 : Nat) = 5 + 1 from rfl, runChain]
    split_ifs <;> simp_all [free_parser_data, isFetchState, hsz, hpay]

/-- Witness for claim C10: the payload `a\0b"` stages 4 bytes and writes
the characters `a`, NUL; the `b` is dropped. -/
theorem string_nul_truncates_witness :
    (string_data_state
        {initParser true [] with pstate := .stringDataSt, hkey := some 1}
        Store.init (wchars ['a','\\','0','b','"'])).1.dataSize =
      2 * (([97] : List Nat).length + 1) ∧
    (runChain adapterAllOk 8
        {initParser true [] with pstate := .stringDataSt, hkey := some 1}
        Store.init (wchars ['a','\\','0','b','"'])).2.values =
      Store.init.values ++ [(1, none, 0, [97] ++ [0])] :=
  string_nul_truncates adapterAllOk
    {initParser true [] with pstate := .stringDataSt, hkey := some 1}
    Store.init (wchars ['a','\\','0','b','"']) [97] [98] [] [] 1
    rfl rfl (by decide) (by decide) (by decide)

theorem close_key_inv (p : Parser) (st : Store) (h : handleInv p st) :
    handleInv (close_key p st).1 (close_key p st).2 ∧
    (close_key p st).2.nextH = st.nextH ∧
    (close_key p st).1.hkey = none ∧
    (close_key p st).2.openHs = [] := by
  cases hh : p.hkey with
  | none =>
    have h1 : st.openHs = [] := by simpa [hh] using h.1
    simp_all [close_key, handleInv, hh]
  | some k =>
    have h1 : st.openHs = [k] := by simpa [hh] using h.1
    simp_all [close_key, handleInv, hh, List.erase_cons_head]

theorem open_key_inv (ad : Adapter) (p : Parser) (st : Store) (path : List Nat)
    (h : handleInv p st) :
    handleInv (open_key ad p st path).1 (open_key ad p st path).2.1 ∧
    (∀ h0, p.hkey = some h0 → h0 ∉ (open_key ad p st path).2.1.openHs) ∧
    st.nextH ≤ (open_key ad p st path).2.1.nextH := by
  have hc := close_key_inv p st h
  have hb : ∀ h0, p.hkey = some h0 → h0 < st.nextH := by
    intro h0 hh0
    exact h.2 h0 (by simp [h.1, hh0])
  simp only [open_key]
  split_ifs with h1 h2
  · refine ⟨⟨by simp [hc.2.2.2], ?_⟩, ?_, ?_⟩
    · intro hh hmem
      simp only [hc.2.2.2] at hmem
      simp only [List.mem_cons, List.not_mem_nil, or_false] at hmem
      subst hmem
      simp [hc.2.1]
    · intro h0 hh0
      have := hb h0 hh0
      simp only [hc.2.2.2, List.mem_cons, List.not_mem_nil, or_false]
      omega
    · simp [hc.2.1]
  · exact ⟨⟨by simp [hc.2.2.2, hc.2.2.1], by simp [hc.2.2.2]⟩,
      by simp [hc.2.2.2], by simp [hc.2.1]⟩
  · exact ⟨⟨by simp [hc.2.2.2, hc.2.2.1], by simp [hc.2.2.2]⟩,
      by simp [hc.2.2.2], by simp [hc.2.1]⟩

theorem chainStep_inv (ad : Adapter) (p : Parser) (st : Store) (cur : List Nat)
    (h : handleInv p st) :
    handleInv (chainStep ad p st cur).1 (chainStep ad p st cur).2.1 := by
  cases hs : p.pstate
  case dataTypeSt =>
    have hf := parse_data_type_fields p cur
    simp only [chainStep, hs, data_type_state]
    rcases hpd : parse_data_type p cur with ⟨p1, ro⟩
    rw [hpd] at hf
    cases ro
    · refine ⟨?_, h.2⟩
      show st.openHs = p1.hkey.toList
      rw [hf.2.2]
      exact h.1
    · dsimp only []
      split_ifs <;>
        · refine ⟨?_, h.2⟩
          show st.openHs = p1.hkey.toList
          rw [hf.2.2]
          exact h.1
  case keyNameSt =>
    simp only [chainStep, hs, key_name_state]
    by_cases hb : isBlank (cur.headD 0) = true
    · rw [if_pos hb]; exact ⟨h.1, h.2⟩
    · rw [if_neg hb]
      rcases hmk : strrchrIdx cur 93 with _ | k
      · exact ⟨h.1, h.2⟩
      · simp only []
        by_cases h45 : cur.headD 0 = 45
        · rw [if_pos h45]; exact ⟨h.1, h.2⟩
        · rw [if_neg h45]
          by_cases hok : (open_key ad p st (cur.take k)).2.2 = true
          · rw [if_pos hok]
            exact (open_key_inv ad p st (cur.take k) h).1
          · rw [if_neg hok]
            exact ⟨(open_key_inv ad p st (cur.take k) h).1.1,
              (open_key_inv ad p st (cur.take k) h).1.2⟩
  case quotedValueNameSt =>
    simp only [chainStep, hs, quoted_value_name_state]
    rcases unescape_string cur with ⟨_ | ⟨u, rest⟩, ds⟩ <;>
      exact ⟨h.1, h.2⟩
  case stringDataSt =>
    simp only [chainStep, hs, string_data_state]
    rcases unescape_string cur with ⟨_ | ⟨u, rest⟩, ds⟩
    · exact ⟨h.1, h.2⟩
    · dsimp only []
      split_ifs <;> exact ⟨h.1, h.2⟩
  case dwordDataSt =>
    simp only [chainStep, hs, dword_data_state]
    rcases convert_hex_to_dword cur with _ | dw <;> exact ⟨h.1, h.2⟩
  case setValueSt =>
    simp only [chainStep, hs, set_value_state]
    rcases hk : p.hkey with _ | k <;>
      exact ⟨by simpa [hk, free_parser_data] using h.1, h.2⟩
  case dataStartSt =>
    simp only [chainStep, hs, data_start_state]
    repeat' first | split_ifs | split
    all_goals exact ⟨h.1, h.2⟩
  case headerSt => simp only [chainStep, hs]; exact ⟨h.1, h.2⟩
  case win31St => simp only [chainStep, hs]; exact ⟨h.1, h.2⟩
  case lineStartSt => simp only [chainStep, hs]; exact ⟨h.1, h.2⟩
  case defaultValueNameSt =>
    simp only [chainStep, hs, default_value_name_state]
    exact ⟨h.1, h.2⟩

theorem runChain_inv (ad : Adapter) (fuel : Nat) :
    ∀ (p : Parser) (st : Store) (cur : List Nat), handleInv p st →
    handleInv (runChain ad fuel p st cur).1 (runChain ad fuel p st cur).2 := by
  induction fuel with
  | zero => exact fun p st cur h => h
  | succ n ih =>
    intro p st cur h
    rw [runChain]
    split_ifs with hf
    · exact h
    · exact ih _ _ _ (chainStep_inv ad p st cur h)

theorem win31_inv (ad : Adapter) (p : Parser) (st : Store) (l : List Nat)
    (h : handleInv p st) :
    handleInv (parse_win31_line_state ad p st l).1
      (parse_win31_line_state ad p st l).2.1 := by
  simp only [parse_win31_line_state]
  split_ifs
  all_goals first
    | exact ⟨h.1, h.2⟩
    | exact ⟨(open_key_inv ad p st _ h).1.1, (open_key_inv ad p st _ h).1.2⟩

theorem dispatch_inv (p : Parser) (l : List Nat) (st : Store)
    (h : handleInv p st) : handleInv (line_start_dispatch p l).1 st := by
  simp only [line_start_dispatch]
  repeat' first | split_ifs | split
  all_goals exact ⟨h.1, h.2⟩

theorem runLines_inv (ad : Adapter) (ls : List (List Nat)) :
    ∀ (p : Parser) (st : Store), handleInv p st →
    handleInv (runLines ad ls p st).1 (runLines ad ls p st).2 := by
  induction ls with
  | nil => exact fun p st h => h
  | cons l ls ih =>
    intro p st h
    rw [runLines]
    cases hs : p.pstate
    case headerSt =>
      dsimp only []
      rcases parse_file_header (if p.isUnicode then l else p.twoWchars ++ l) with
        _ | _ | _ | _ | _
      · exact ih _ _ ⟨h.1, h.2⟩
      · exact ih _ _ ⟨h.1, h.2⟩
      · exact ih _ _ ⟨h.1, h.2⟩
      · exact ⟨h.1, h.2⟩
      · exact ⟨h.1, h.2⟩
    case win31St =>
      exact ih _ _ (runChain_inv ad 8 _ _ _ (win31_inv ad p st l h))
    case lineStartSt =>
      exact ih _ _ (runChain_inv ad 8 _ _ _ (dispatch_inv p l st h))
    all_goals exact h

theorem handleInv_length (p : Parser) (st : Store) (h : handleInv p st) :
    st.openHs.length ≤ 1 := by
  rw [h.1]
  cases p.hkey <;> simp

/-- Claim C7: every invocation of open_key first closes and releases the
previously open key handle and its stored path before opening the new key
(the adapter trace records the RegCloseKey before anything else open_key
does), the old handle is never among the open handles afterwards (no leak),
and the at-most-one-open-key invariant is preserved by open_key and by the
whole parser run, so at every instant the context holds at most one open
key handle. -/
theorem open_key_at_most_one_handle (ad : Adapter) (p : Parser) (st : Store)
    (path : List Nat) (lines : List (List Nat)) (h : handleInv p st) :
    (∀ h0, p.hkey = some h0 →
      ∃ ops, (open_key ad p st path).2.1.trace =
        st.trace ++ Op.closeK h0 :: ops) ∧
    (∀ h0, p.hkey = some h0 → h0 ∉ (open_key ad p st path).2.1.openHs) ∧
    handleInv (open_key ad p st path).1 (open_key ad p st path).2.1 ∧
    (open_key ad p st path).2.1.openHs.length ≤ 1 ∧
    handleInv (runLines ad lines p st).1 (runLines ad lines p st).2 ∧
    (runLines ad lines p st).2.openHs.length ≤ 1 := by
  refine ⟨?_, (open_key_inv ad p st path h).2.1,
    (open_key_inv ad p st path h).1,
    handleInv_length _ _ (open_key_inv ad p st path h).1,
    runLines_inv ad lines p st h,
    handleInv_length _ _ (runLines_inv ad lines p st h)⟩
  intro h0 hh0
  simp only [open_key, close_key, hh0]
  split_ifs with h1 h2
  · exact ⟨[Op.createK path (some (close_key p st).2.nextH)],
      by simp [close_key, hh0]⟩
  · exact ⟨[Op.createK path none], by simp [close_key, hh0]⟩
  · exact ⟨[], by simp⟩

/-- Witness for claim C7: a context holding handle 1 opens a new key; the
old handle is closed first and no longer open. -/
theorem open_key_at_most_one_handle_witness :
    (1 : Nat) ∉ (open_key adapterAllOk
      {initParser true [] with hkey := some 1}
      {Store.init with openHs := [1], nextH := 2} []).2.1.openHs :=
  (open_key_at_most_one_handle adapterAllOk
    {initParser true [] with hkey := some 1}
    {Store.init with openHs := [1], nextH := 2} [] []
    ⟨rfl, by decide⟩).2.1 1 rfl

/-! Claim C8: containment of key-open failures. -/

theorem hasOpen_append (d e : List Op) :
    hasOpen (d ++ e) = (hasOpen d || hasOpen e) := by
  induction d with
  | nil => simp [hasOpen]
  | cons op d ih =>
    cases op with
    | createK path res => cases res <;> simp [hasOpen, ih]
    | closeK h => simp [hasOpen, ih]
    | setV h n t pl s => simp [hasOpen, ih]

theorem writesAfterOpen_append (d e : List Op)
    (h1 : writesAfterOpen d = true)
    (h2 : hasOpen d = true ∨ writesAfterOpen e = true) :
    writesAfterOpen (d ++ e) = true := by
  induction d with
  | nil =>
    rcases h2 with h2 | h2
    · exact absurd h2 (by simp [hasOpen])
    · simpa using h2
  | cons op d ih =>
    cases op with
    | createK path res =>
      cases res with
      | none =>
        simp only [writesAfterOpen, List.cons_append] at h1 ⊢
        exact ih h1 (by simpa [hasOpen] using h2)
      | some r => simp [writesAfterOpen]
    | closeK hh =>
      simp only [writesAfterOpen, List.cons_append] at h1 ⊢
      exact ih h1 (by simpa [hasOpen] using h2)
    | setV hh n t pl s =>
      cases hh with
      | none =>
        simp only [writesAfterOpen, List.cons_append] at h1 ⊢
        exact ih h1 (by simpa [hasOpen] using h2)
      | some r => exact absurd h1 (by simp [writesAfterOpen])

theorem KeylessDelta_refl (p : Parser) (st : Store) (h : p.hkey = none) :
    KeylessDelta p st st :=
  ⟨[], (List.append_nil _).symm, rfl, fun _ => ⟨h, rfl⟩⟩

theorem trace_extends_trans {st0 st1 st2 : Store}
    (h1 : ∃ d, st1.trace = st0.trace ++ d)
    (h2 : ∃ d, st2.trace = st1.trace ++ d) :
    ∃ d, st2.trace = st0.trace ++ d := by
  obtain ⟨d1, h1⟩ := h1
  obtain ⟨d2, h2⟩ := h2
  exact ⟨d1 ++ d2, by rw [h2, h1, List.append_assoc]⟩

theorem KeylessDelta_trans {p1 p2 : Parser} {st0 st1 st2 : Store}
    (h1 : KeylessDelta p1 st0 st1)
    (hm : ∃ d, st2.trace = st1.trace ++ d)
    (h2 : p1.hkey = none → KeylessDelta p2 st1 st2) :
    KeylessDelta p2 st0 st2 := by
  obtain ⟨d1, ht1, hw1, hc1⟩ := h1
  cases ho1 : hasOpen d1 with
  | true =>
    obtain ⟨d2, ht2⟩ := hm
    refine ⟨d1 ++ d2, by rw [ht2, ht1, List.append_assoc],
      writesAfterOpen_append d1 d2 hw1 (Or.inl ho1), fun hfo => ?_⟩
    rw [hasOpen_append, ho1] at hfo
    exact absurd hfo (by simp)
  | false =>
    obtain ⟨d2, ht2, hw2, hc2⟩ := h2 (hc1 ho1).1
    refine ⟨d1 ++ d2, by rw [ht2, ht1, List.append_assoc],
      writesAfterOpen_append d1 d2 hw1 (Or.inr hw2), fun hfo => ?_⟩
    rw [hasOpen_append, Bool.or_eq_false_iff] at hfo
    exact ⟨(hc2 hfo.2).1, ((hc2 hfo.2).2).trans (hc1 ho1).2⟩

theorem open_key_fail (ad : Adapter) (p : Parser) (st : Store)
    (path : List Nat) (h : ad.rootOk path = false ∨ ad.createOk path = false) :
    (open_key ad p st path).2.2 = false ∧
    (open_key ad p st path).1.hkey = none := by
  rcases hh : p.hkey with _ | k <;>
    simp only [open_key, close_key, hh] <;>
    split_ifs with h1 h2 <;>
    simp_all

theorem open_key_msgs (ad : Adapter) (p : Parser) (st : Store)
    (path : List Nat) : (open_key ad p st path).2.1.msgs = st.msgs := by
  rcases hh : p.hkey with _ | k <;>
    simp only [open_key, close_key, hh] <;> split_ifs <;> rfl

theorem open_key_trace (ad : Adapter) (p : Parser) (st : Store)
    (path : List Nat) :
    ∃ d, (open_key ad p st path).2.1.trace = st.trace ++ d := by
  rcases hh : p.hkey with _ | k <;>
    simp only [open_key, close_key, hh] <;> split_ifs <;>
    first
      | exact ⟨[], (List.append_nil _).symm⟩
      | exact ⟨[.createK path (some st.nextH)], rfl⟩
      | exact ⟨[.createK path none], rfl⟩
      | exact ⟨[.closeK k], rfl⟩
      | exact ⟨[.closeK k, .createK path (some st.nextH)],
          List.append_assoc _ _ _⟩
      | exact ⟨[.closeK k, .createK path none], List.append_assoc _ _ _⟩

theorem open_key_keyless (ad : Adapter) (p : Parser) (st : Store)
    (path : List Nat) (h : p.hkey = none) :
    ∃ d, (open_key ad p st path).2.1.trace = st.trace ++ d ∧
      writesAfterOpen d = true ∧
      (hasOpen d = false →
        (open_key ad p st path).2.2 = false ∧
        (open_key ad p st path).1.hkey = none ∧
        (open_key ad p st path).2.1.values = st.values) := by
  simp only [open_key, close_key, h]
  split_ifs with h1 h2
  · exact ⟨[.createK path (some st.nextH)], rfl, rfl,
      fun hfo => by simp [hasOpen] at hfo⟩
  · exact ⟨[.createK path none], rfl, rfl, fun _ => ⟨rfl, rfl, rfl⟩⟩
  · exact ⟨[], (List.append_nil _).symm, rfl, fun _ => ⟨rfl, h, rfl⟩⟩

theorem chainStep_trace (ad : Adapter) (p : Parser) (st : Store)
    (cur : List Nat) :
    ∃ d, (chainStep ad p st cur).2.1.trace = st.trace ++ d := by
  cases hs : p.pstate
  case keyNameSt =>
    have ho := open_key_trace ad p st
    simp only [chainStep, hs, key_name_state]
    repeat' first | split_ifs | split
    all_goals first
      | exact ⟨[], (List.append_nil _).symm⟩
      | exact ho _
  case setValueSt =>
    rcases hh : p.hkey with _ | k <;>
      simp only [chainStep, hs, set_value_state, hh] <;>
      exact ⟨[.setV _ _ _ _ _], rfl⟩
  case quotedValueNameSt =>
    simp only [chainStep, hs, quoted_value_name_state]
    rcases unescape_string cur with ⟨_ | ⟨u, rest⟩, ds⟩ <;>
      exact ⟨[], (List.append_nil _).symm⟩
  case stringDataSt =>
    simp only [chainStep, hs, string_data_state]
    rcases unescape_string cur with ⟨_ | ⟨u, rest⟩, ds⟩
    · exact ⟨[], (List.append_nil _).symm⟩
    · dsimp only []
      split_ifs <;> exact ⟨[], (List.append_nil _).symm⟩
  case dwordDataSt =>
    simp only [chainStep, hs, dword_data_state]
    rcases convert_hex_to_dword cur with _ | dw <;>
      exact ⟨[], (List.append_nil _).symm⟩
  case dataTypeSt =>
    simp only [chainStep, hs, data_type_state]
    rcases parse_data_type p cur with ⟨p1, _ | r⟩
    · exact ⟨[], (List.append_nil _).symm⟩
    · dsimp only []
      split_ifs <;> exact ⟨[], (List.append_nil _).symm⟩
  case dataStartSt =>
    simp only [chainStep, hs, data_start_state]
    exact ⟨[], (List.append_nil _).symm⟩
  case headerSt =>
    simp only [chainStep, hs]; exact ⟨[], (List.append_nil _).symm⟩
  case win31St =>
    simp only [chainStep, hs]; exact ⟨[], (List.append_nil _).symm⟩
  case lineStartSt =>
    simp only [chainStep, hs]; exact ⟨[], (List.append_nil _).symm⟩
  case defaultValueNameSt =>
    simp only [chainStep, hs, default_value_name_state]
    exact ⟨[], (List.append_nil _).symm⟩

theorem chainStep_keyless (ad : Adapter) (p : Parser) (st : Store)
    (cur : List Nat) (h : p.hkey = none) :
    KeylessDelta (chainStep ad p st cur).1 st (chainStep ad p st cur).2.1 := by
  cases hs : p.pstate
  case keyNameSt =>
    simp only [chainStep, hs, key_name_state]
    by_cases hb : isBlank (cur.headD 0) = true
    · rw [if_pos hb]; exact KeylessDelta_refl _ _ h
    · rw [if_neg hb]
      rcases hmk : strrchrIdx cur 93 with _ | k
      · exact KeylessDelta_refl _ _ h
      · dsimp only []
        by_cases h45 : cur.headD 0 = 45
        · rw [if_pos h45]; exact KeylessDelta_refl _ _ h
        · rw [if_neg h45]
          obtain ⟨d, ht, hw, hc⟩ := open_key_keyless ad p st (cur.take k) h
          split_ifs with h2
          · exact ⟨d, ht, hw,
              fun hfo => absurd h2 (by simp [(hc hfo).1])⟩
          · exact ⟨d, ht, hw,
              fun hfo => ⟨(hc hfo).2.1, (hc hfo).2.2⟩⟩
  case setValueSt =>
    simp only [chainStep, hs, set_value_state, h]
    exact ⟨[.setV none p.valueName p.dataType _ p.dataSize], rfl, rfl,
      fun _ => ⟨rfl, rfl⟩⟩
  case quotedValueNameSt =>
    simp only [chainStep, hs, quoted_value_name_state]
    rcases unescape_string cur with ⟨_ | ⟨u, rest⟩, ds⟩ <;>
      exact ⟨[], (List.append_nil _).symm, rfl, fun _ => ⟨h, rfl⟩⟩
  case stringDataSt =>
    simp only [chainStep, hs, string_data_state]
    rcases unescape_string cur with ⟨_ | ⟨u, rest⟩, ds⟩
    · exact ⟨[], (List.append_nil _).symm, rfl, fun _ => ⟨h, rfl⟩⟩
    · dsimp only []
      split_ifs <;>
        exact ⟨[], (List.append_nil _).symm, rfl, fun _ => ⟨h, rfl⟩⟩
  case dwordDataSt =>
    simp only [chainStep, hs, dword_data_state]
    rcases convert_hex_to_dword cur with _ | dw <;>
      exact ⟨[], (List.append_nil _).symm, rfl, fun _ => ⟨h, rfl⟩⟩
  case dataTypeSt =>
    have hf := parse_data_type_fields p cur
    simp only [chainStep, hs, data_type_state]
    rcases hpd : parse_data_type p cur with ⟨p1, ro⟩
    rw [hpd] at hf
    have hk1 : p1.hkey = none := hf.2.2.trans h
    cases ro
    · exact ⟨[], (List.append_nil _).symm, rfl, fun _ => ⟨hk1, rfl⟩⟩
    · dsimp only []
      split_ifs <;>
        exact ⟨[], (List.append_nil _).symm, rfl, fun _ => ⟨hk1, rfl⟩⟩
  case dataStartSt =>
    simp only [chainStep, hs, data_start_state]
    repeat' first | split_ifs | split
    all_goals exact ⟨[], (List.append_nil _).symm, rfl, fun _ => ⟨h, rfl⟩⟩
  case headerSt => simp only [chainStep, hs]; exact KeylessDelta_refl _ _ h
  case win31St => simp only [chainStep, hs]; exact KeylessDelta_refl _ _ h
  case lineStartSt => simp only [chainStep, hs]; exact KeylessDelta_refl _ _ h
  case defaultValueNameSt =>
    simp only [chainStep, hs, default_value_name_state]
    exact ⟨[], (List.append_nil _).symm, rfl, fun _ => ⟨h, rfl⟩⟩

theorem runChain_trace (ad : Adapter) (fuel : Nat) :
    ∀ (p : Parser) (st : Store) (cur : List Nat),
    ∃ d, (runChain ad fuel p st cur).2.trace = st.trace ++ d := by
  induction fuel with
  | zero => exact fun p st cur => ⟨[], (List.append_nil _).symm⟩
  | succ n ih =>
    intro p st cur
    rw [runChain]
    split_ifs with hf
    · exact ⟨[], (List.append_nil _).symm⟩
    · exact trace_extends_trans (chainStep_trace ad p st cur)
        (ih (chainStep ad p st cur).1 (chainStep ad p st cur).2.1
          (chainStep ad p st cur).2.2)

theorem runChain_keyless (ad : Adapter) (fuel : Nat) :
    ∀ (p : Parser) (st : Store) (cur : List Nat), p.hkey = none →
    KeylessDelta (runChain ad fuel p st cur).1 st
      (runChain ad fuel p st cur).2 := by
  induction fuel with
  | zero => exact fun p st cur h => KeylessDelta_refl p st h
  | succ n ih =>
    intro p st cur h
    rw [runChain]
    split_ifs with hf
    · exact KeylessDelta_refl p st h
    · exact KeylessDelta_trans (chainStep_keyless ad p st cur h)
        (runChain_trace ad n (chainStep ad p st cur).1
          (chainStep ad p st cur).2.1 (chainStep ad p st cur).2.2)
        (fun hk => ih (chainStep ad p st cur).1 (chainStep ad p st cur).2.1
          (chainStep ad p st cur).2.2 hk)

theorem win31_trace (ad : Adapter) (p : Parser) (st : Store) (l : List Nat) :
    ∃ d, (parse_win31_line_state ad p st l).2.1.trace = st.trace ++ d := by
  have ho := open_key_trace ad p st
  simp only [parse_win31_line_state]
  split_ifs
  all_goals first
    | exact ⟨[], (List.append_nil _).symm⟩
    | exact ho _

theorem win31_keyless (ad : Adapter) (p : Parser) (st : Store) (l : List Nat)
    (h : p.hkey = none) :
    KeylessDelta (parse_win31_line_state ad p st l).1 st
      (parse_win31_line_state ad p st l).2.1 := by
  obtain ⟨d, ht, hw, hc⟩ := open_key_keyless ad p st
    (l.take (l.takeWhile (fun c => !(isspaceW c))).length) h
  simp only [parse_win31_line_state]
  split_ifs
  all_goals first
    | exact KeylessDelta_refl p st h
    | exact ⟨d, ht, hw, fun hfo => ⟨(hc hfo).2.1, (hc hfo).2.2⟩⟩

theorem dispatch_hkey (p : Parser) (l : List Nat) :
    (line_start_dispatch p l).1.hkey = p.hkey := by
  simp only [line_start_dispatch]
  repeat' first | split_ifs | split
  all_goals rfl

theorem runLines_trace (ad : Adapter) (ls : List (List Nat)) :
    ∀ (p : Parser) (st : Store),
    ∃ d, (runLines ad ls p st).2.trace = st.trace ++ d := by
  induction ls with
  | nil => exact fun p st => ⟨[], (List.append_nil _).symm⟩
  | cons l ls ih =>
    intro p st
    rw [runLines]
    cases hs : p.pstate
    case headerSt =>
      dsimp only []
      rcases parse_file_header (if p.isUnicode then l else p.twoWchars ++ l) with
        _ | _ | _ | _ | _
      · exact ih _ _
      · exact ih _ _
      · exact ih _ _
      · exact ⟨[], (List.append_nil _).symm⟩
      · exact ⟨[], (List.append_nil _).symm⟩
    case win31St =>
      exact trace_extends_trans (win31_trace ad p st l)
        (trace_extends_trans
          (runChain_trace ad 8 (parse_win31_line_state ad p st l).1
            (parse_win31_line_state ad p st l).2.1
            (parse_win31_line_state ad p st l).2.2)
          (ih _ _))
    case lineStartSt =>
      exact trace_extends_trans
        (runChain_trace ad 8 (line_start_dispatch p l).1 st
          (line_start_dispatch p l).2)
        (ih _ _)
    all_goals exact ⟨[], (List.append_nil _).symm⟩

theorem runLines_keyless (ad : Adapter) (ls : List (List Nat)) :
    ∀ (p : Parser) (st : Store), p.hkey = none →
    KeylessDelta (runLines ad ls p st).1 st (runLines ad ls p st).2 := by
  induction ls with
  | nil => exact fun p st h => KeylessDelta_refl p st h
  | cons l ls ih =>
    intro p st h
    rw [runLines]
    cases hs : p.pstate
    case headerSt =>
      dsimp only []
      rcases parse_file_header (if p.isUnicode then l else p.twoWchars ++ l) with
        _ | _ | _ | _ | _
      · exact ih _ _ h
      · exact ih _ _ h
      · exact ih _ _ h
      · exact KeylessDelta_refl _ _ h
      · exact KeylessDelta_refl _ _ h
    case win31St =>
      refine KeylessDelta_trans (win31_keyless ad p st l h)
        (trace_extends_trans
          (runChain_trace ad 8 (parse_win31_line_state ad p st l).1
            (parse_win31_line_state ad p st l).2.1
            (parse_win31_line_state ad p st l).2.2)
          (runLines_trace ad ls _ _))
        (fun hk => ?_)
      exact KeylessDelta_trans
        (runChain_keyless ad 8 (parse_win31_line_state ad p st l).1
          (parse_win31_line_state ad p st l).2.1
          (parse_win31_line_state ad p st l).2.2 hk)
        (runLines_trace ad ls _ _)
        (fun hk2 => ih _ _ hk2)
    case lineStartSt =>
      refine KeylessDelta_trans
        (runChain_keyless ad 8 (line_start_dispatch p l).1 st
          (line_start_dispatch p l).2 ((dispatch_hkey p l).trans h))
        (runLines_trace ad ls _ _)
        (fun hk2 => ih _ _ hk2)
    all_goals exact KeylessDelta_refl _ _ h

/-- Claim C8: when opening/creating a key through the store adapter fails on
a key line, the failure is reported as a STRING_OPEN_KEY_FAILED message, the
previously open key (if any) has been closed and forgotten so nothing can be
written to it any more, and the state machine returns to LINE_START so the
run continues with the next line; and from any point where no key is open —
in particular right after such a failure — the rest of the run, under an
arbitrary adapter, emits no value write to the store before the next
successful key creation: every RegSetValueExW issued earlier in the trace
carries a NULL handle, and as long as no later key line opens a key
successfully the stored values stay unchanged. -/
theorem key_open_failure_contained (ad : Adapter) :
    (∀ (p : Parser) (st : Store) (cur : List Nat) (k : Nat),
      isBlank (cur.headD 0) = false → strrchrIdx cur 93 = some k →
      cur.headD 0 ≠ 45 →
      ad.rootOk (cur.take k) = false ∨ ad.createOk (cur.take k) = false →
      (key_name_state ad p st cur).1.pstate = .lineStartSt ∧
      (key_name_state ad p st cur).1.hkey = none ∧
      (key_name_state ad p st cur).2.msgs =
        st.msgs ++ [.openKeyFailed (cur.take k)]) ∧
    (∀ (p : Parser) (st : Store) (lines : List (List Nat)), p.hkey = none →
      writesAfterOpen
        ((runLines ad lines p st).2.trace.drop st.trace.length) = true ∧
      (hasOpen ((runLines ad lines p st).2.trace.drop st.trace.length) =
          false →
        (runLines ad lines p st).2.values = st.values)) := by
  constructor
  · intro p st cur k hb hmk h45 hfail
    have ho := open_key_fail ad p st (cur.take k) hfail
    simp only [key_name_state, hb, hmk]
    rw [if_neg (by simp [hb])]
    rw [if_neg h45, if_neg (by simp [ho.1])]
    exact ⟨rfl, ho.2, by simp [open_key_msgs]⟩
  · intro p st lines h
    obtain ⟨d, ht, hw, hc⟩ := runLines_keyless ad lines p st h
    have hd : (runLines ad lines p st).2.trace.drop st.trace.length = d := by
      rw [ht, List.drop_left]
    rw [hd]
    exact ⟨hw, fun hfo => (hc hfo).2⟩

/-- Witness for claim C8 on a mixed run: a failing key line, met while a
previous key is still open, reports STRING_OPEN_KEY_FAILED, clears the open
key and returns to LINE_START; a full run under an adapter that creates
every key except one writes nothing before its first successful creation;
and a run whose only key line fails leaves the stored values untouched. -/
theorem key_open_failure_contained_witness :
    ((key_name_state adapterNoBar
        {initParser true [] with pstate := .keyNameSt, hkey := some 1}
        {Store.init with nextH := 2, openHs := [1]}
        (wchars ['H','K','C','U','\\','B','a','r',']'])).1.pstate =
          .lineStartSt ∧
      (key_name_state adapterNoBar
        {initParser true [] with pstate := .keyNameSt, hkey := some 1}
        {Store.init with nextH := 2, openHs := [1]}
        (wchars ['H','K','C','U','\\','B','a','r',']'])).1.hkey = none ∧
      (key_name_state adapterNoBar
        {initParser true [] with pstate := .keyNameSt, hkey := some 1}
        {Store.init with nextH := 2, openHs := [1]}
        (wchars ['H','K','C','U','\\','B','a','r',']'])).2.msgs =
        {Store.init with nextH := 2, openHs := [1]}.msgs ++
          [.openKeyFailed ((wchars ['H','K','C','U','\\','B','a','r',']']).take 8)]) ∧
    writesAfterOpen ((runLines adapterNoBar
        [header50, lineKeyFoo, lineKeyBar,
         wchars ['"','B','a','r','"','=','"','B','a','z','"'], lineKeyFoo]
        (initParser true []) Store.init).2.trace.drop
          Store.init.trace.length) = true ∧
    (runLines adapterNoCreate
        [header50, lineKeyFoo,
         wchars ['"','B','a','r','"','=','"','B','a','z','"']]
        (initParser true []) Store.init).2.values = Store.init.values :=
  ⟨(key_open_failure_contained adapterNoBar).1
      {initParser true [] with pstate := .keyNameSt, hkey := some 1}
      {Store.init with nextH := 2, openHs := [1]}
      (wchars ['H','K','C','U','\\','B','a','r',']']) 8
      (by decide) (by decide) (by decide) (Or.inr (by decide)),
   ((key_open_failure_contained adapterNoBar).2 (initParser true [])
      Store.init
      [header50, lineKeyFoo, lineKeyBar,
       wchars ['"','B','a','r','"','=','"','B','a','z','"'], lineKeyFoo]
      rfl).1,
   ((key_open_failure_contained adapterNoCreate).2 (initParser true [])
      Store.init
      [header50, lineKeyFoo,
       wchars ['"','B','a','r','"','=','"','B','a','z','"']]
      rfl).2 (by decide)⟩

theorem findTermIdx_replicate_append (n : Nat) (l : List Nat) :
    findTermIdx (List.replicate n 97 ++ l) = (findTermIdx l).map (· + n) := by
  induction n with
  | zero => cases h : findTermIdx l <;> simp [h]
  | succ m ih =>
    rw [List.replicate_succ, List.cons_append, findTermIdx]
    rw [if_neg (by norm_num), ih]
    cases h : findTermIdx l
    · simp [h]
    · simp [h]
      omega

theorem rep_len : (List.replicate 4094 (97 : Nat)).length = 4094 := by
  rw [List.length_replicate]

theorem chunk1_take : c9input.take 4095 = List.replicate 4094 97 ++ [13] := by
  rw [c9input, show (4095 : Nat) = (List.replicate 4094 (97:Nat)).length + 1 by
    rw [rep_len]]
  rw [List.take_append]
  rfl

theorem rest1_drop : c9input.drop 4095 = [10, 98] := by
  rw [c9input, show (4095 : Nat) = (List.replicate 4094 (97:Nat)).length + 1 by
    rw [rep_len]]
  rw [List.drop_append]
  rfl

theorem chunk1_len : (List.replicate 4094 (97:Nat) ++ [13]).length = 4095 := by
  rw [List.length_append, List.length_replicate, List.length_cons,
    List.length_nil]

theorem find_chunk1 :
    findTermIdx (List.replicate 4094 (97:Nat) ++ [13]) = some 4094 := by
  rw [findTermIdx_replicate_append]
  rfl

theorem strp_chunk1 :
    strpbrkIdx (List.replicate 4094 (97:Nat) ++ [13]) 0 = some 4094 := by
  rw [strpbrkIdx, List.drop_zero, find_chunk1]
  rfl

theorem getD_chunk1_4094 :
    (List.replicate 4094 (97:Nat) ++ [13]).getD 4094 0 = 13 := by
  rw [List.getD_eq_getElem?_getD, List.getElem?_append_right (by rw [rep_len])]
  rw [rep_len]
  rfl

theorem getD_chunk1_4095 :
    (List.replicate 4094 (97:Nat) ++ [13]).getD 4095 0 = 0 := by
  rw [List.getD_eq_getElem?_getD, List.getElem?_eq_none (by rw [chunk1_len])]
  rfl

theorem take_chunk1 :
    (List.replicate 4094 (97:Nat) ++ [13]).take 4094 = List.replicate 4094 97 := by
  have h := List.take_left (List.replicate 4094 (97:Nat)) [13]
  rw [rep_len] at h
  exact h

theorem drop_chunk1 :
    (List.replicate 4094 (97:Nat) ++ [13]).drop 4095 = [] := by
  apply List.drop_eq_nil_of_le
  rw [chunk1_len]

theorem c9len : c9input.length = 4097 := by
  rw [c9input, List.length_append, List.length_replicate]
  rfl

theorem strp_chunk1_4095 :
    strpbrkIdx (List.replicate 4094 (97:Nat) ++ [13]) 4095 = none := by
  rw [strpbrkIdx, drop_chunk1]
  rfl

theorem call1 : get_lineA_call ⟨0, [], some 0, c9input⟩ =
    (some (List.replicate 4094 97),
     ⟨4096, List.replicate 4094 97 ++ [13], some 4095, [10, 98]⟩) := by
  rw [get_lineA_call]
  simp only [REG_VAL_BUF_SIZE]
  norm_num
  rw [c9len]
  rw [show (4097 : Nat) + 2 = 4098 + 1 from rfl, lineALoop]
  simp only [show strpbrkIdx [] 0 = none from rfl]
  norm_num
  rw [chunk1_take, rest1_drop]
  have hne : c9input ≠ [] := by
    intro h
    have := c9len
    rw [h] at this
    exact absurd this (by norm_num)
  rw [if_neg hne]
  rw [show (4098 : Nat) = 4097 + 1 from rfl, lineALoop]
  simp only [strp_chunk1]
  have hcond : ¬((List.replicate 4094 (97:Nat) ++ [13]).getD 4094 0 = 13 ∧
      (List.replicate 4094 (97:Nat) ++ [13]).getD (4094 + 1) 0 = 10) := by
    rintro ⟨-, h2⟩
    rw [List.getD_eq_getElem?_getD,
      List.getElem?_eq_none (by rw [chunk1_len])] at h2
    exact absurd h2 (by norm_num)
  rw [if_neg hcond]
  norm_num

theorem call2 : get_lineA_call
    ⟨4096, List.replicate 4094 (97:Nat) ++ [13], some 4095, [10, 98]⟩ =
    (some [], ⟨4096, [10, 98], some 1, []⟩) := by
  rw [get_lineA_call]
  norm_num
  rw [show (4 : Nat) = 3 + 1 from rfl, lineALoop]
  simp only [strp_chunk1_4095]
  rw [chunk1_len, drop_chunk1]
  norm_num
  rw [show (3 : Nat) = 2 + 1 from rfl, lineALoop]
  simp only [show strpbrkIdx [10, 98] 0 = some 0 from rfl]
  norm_num

theorem call3 : get_lineA_call ⟨4096, [10, 98], some 1, []⟩ =
    (some [98], ⟨4096, [98], none, []⟩) := by
  rw [get_lineA_call]
  norm_num
  rw [show (2 : Nat) = 1 + 1 from rfl, lineALoop]
  simp only [show strpbrkIdx [10, 98] 1 = none from rfl]
  norm_num

theorem call4 : get_lineA_call ⟨4096, [98], none, []⟩ =
    (none, ⟨0, [], none, []⟩) := by
  rw [get_lineA_call]
  norm_num

theorem getLinesA_c9 :
    getLinesA c9input = [List.replicate 4094 97, [], [98]] := by
  rw [getLinesA, c9len]
  rw [show (4097 : Nat) + 2 = 4098 + 1 from rfl, getLinesGo, call1]
  dsimp only []
  rw [show (4098 : Nat) = 4097 + 1 from rfl, getLinesGo, call2]
  dsimp only []
  rw [show (4097 : Nat) = 4096 + 1 from rfl, getLinesGo, call3]
  dsimp only []
  rw [show (4096 : Nat) = 4095 + 1 from rfl, getLinesGo, call4]

theorem splitLines_cons_97 (r : List Nat) :
    splitLines (97 :: r) =
      match splitLines r with
      | l :: ls => (97 :: l) :: ls
      | [] => [[97]] := rfl

theorem splitLines_rep97 (n : Nat) (l x : List Nat) (xs : List (List Nat))
    (h : splitLines l = x :: xs) :
    splitLines (List.replicate n 97 ++ l) = (List.replicate n 97 ++ x) :: xs := by
  induction n with
  | zero => simpa using h
  | succ m ih =>
    rw [List.replicate_succ, List.cons_append, splitLines_cons_97, ih]
    rfl

theorem splitLines_c9 :
    splitLines c9input = [List.replicate 4094 97, [98]] := by
  have h1 : splitLines [13, 10, 98] = [] :: [[98]] := rfl
  have h2 := splitLines_rep97 4094 [13, 10, 98] [] [[98]] h1
  rw [c9input, h2, List.append_nil]

/-- Claim C9 is violated by the code: on c9input the first fread returns
4095 bytes ending exactly at the CR, so `*(p + 1)` reads the NUL terminator
instead of the LF still in the stream, the CRLF pair is treated as two
terminators, and get_lineA emits a spurious empty line: the code returns
[line, "", "b"] where the logical split is [line, "b"]. The evident intent
(the `*p == CR and *(p+1) == LF` check; the spec's "splits on CR, LF, or
CRLF") is to treat CRLF as one terminator, so this input shows lines are not
returned "exactly once". -/
theorem get_lineA_crlf_straddle_bug :
    getLinesA c9input = [List.replicate 4094 97, [], [98]] ∧
    splitLines c9input = [List.replicate 4094 97, [98]] ∧
    getLinesA c9input ≠ splitLines c9input := by
  refine ⟨getLinesA_c9, splitLines_c9, ?_⟩
  rw [getLinesA_c9, splitLines_c9]
  intro h
  have hl := congrArg List.length h
  simp only [List.length_cons, List.length_nil] at hl
  omega

end RegImport
